import Mathlib

/-!
Shallow embedding of kvdi's authorization core: the `Rule` helpers of the
`v1` API package (HasVerb, HasResourceType, MatchesResourceName, HasNamespace,
DeepEqual, strSliceEqual) and the `grants` capability bitmask
(`pkg/util/grants/grants.go`), together with theorems settling the spec's
claims about them.
-/

/-! ## Regular-expression model

`MatchesResourceName` calls Go's standard-library `regexp` package
(`regexp.Compile` and `Regexp.MatchString`), an external collaborator of this
repository.  We model the subset of its behaviour the rules exercise:
patterns made of literal characters, grouping parentheses and the anchors
`^` (pattern start) and `$` (pattern end).  A pattern with an unbalanced
parenthesis, or using a metacharacter outside this subset, fails to compile
(`regexpCompile` returns `none`, modelling Go's non-nil `error`). -/

/-- Characters that are regexp metacharacters outside the modelled subset.
Compiling a pattern containing one of them is not modelled (treated as a
compile failure). -/
def isMeta (c : Char) : Bool :=
  c = '*' || c = '+' || c = '?' || c = '|' || c = '[' || c = ']' ||
  c = '\x7b' || c = '\x7d' || c = '^' || c = '$' || c = '.' || c = '\\'

/-- Parse the body of a pattern, flattening grouping parentheses; the `Nat`
argument is the current parenthesis nesting depth.  Returns `none` on an
unbalanced parenthesis or an unsupported metacharacter. -/
def parseBody : List Char → Nat → Option (List Char)
  | [], 0 => some []
  | [], _ + 1 => none
  | c :: rest, d =>
    if c = '(' then parseBody rest (d + 1)
    else if c = ')' then
      match d with
      | 0 => none
      | d' + 1 => parseBody rest d'
    else if isMeta c then none
    else (parseBody rest d).map (fun l => c :: l)

/-- A compiled pattern of the modelled regexp subset: optional start/end
anchors around a sequence of literal characters. -/
structure Regexp where
  startAnchor : Bool
  endAnchor : Bool
  chars : List Char
deriving DecidableEq

/-- Model of Go's `regexp.Compile`: `some` compiled pattern on success,
`none` when Go would return a non-nil error. -/
def regexpCompile (pattern : String) : Option Regexp :=
  let cs := pattern.data
  let p1 : Bool × List Char :=
    match cs with
    | '^' :: rest => (true, rest)
    | _ => (false, cs)
  let p2 : Bool × List Char :=
    match p1.2.reverse with
    | '$' :: rest => (true, rest.reverse)
    | _ => (false, p1.2)
  (parseBody p2.2 0).map (fun body => ⟨p1.1, p2.1, body⟩)

/-- Whether `needle` occurs as a contiguous subsequence of the second list. -/
def containsSeq (needle : List Char) : List Char → Bool
  | [] => needle.isEmpty
  | h :: t => needle.isPrefixOf (h :: t) || containsSeq needle t

/-- Model of Go's `Regexp.MatchString`: does the compiled pattern match
somewhere in the string (respecting its anchors)? -/
def Regexp.MatchString (re : Regexp) (s : String) : Bool :=
  match re.startAnchor, re.endAnchor with
  | true, true => re.chars == s.data
  | true, false => re.chars.isPrefixOf s.data
  | false, true => re.chars.reverse.isPrefixOf s.data.reverse
  | false, false => containsSeq re.chars s.data

/-! ## Enumerated vocabulary

In the repository, `Verb` and `Resource` are string types of the `v1`
package, declared outside the provided sources. -/

/-- Modelled from the spec: `Verb` is a string-typed action kind. -/
abbrev Verb := String

/-- Modelled from the spec: `Resource` is a string-typed resource kind. -/
abbrev Resource := String

/-- Modelled from the spec: the wildcard verb, literal `"*"`. -/
def VerbAll : Verb := "*"

/-- Modelled from the spec: the wildcard resource, literal `"*"`. -/
def ResourceAll : Resource := "*"

/-- Modelled from the spec: the wildcard namespace, literal `"*"`. -/
def NamespaceAll : String := "*"

/-! ## Rule -/

/-- A set of permissions applied to a VDIRole: verbs, resources,
resource-name regex patterns and namespaces. -/
structure Rule where
  Verbs : List Verb
  Resources : List Resource
  ResourcePatterns : List String
  Namespaces : List String
deriving DecidableEq

/-- `IsEmpty` returns true if this rule is empty. -/
def Rule.IsEmpty (r : Rule) : Bool :=
  r.Verbs.length == 0 && r.Resources.length == 0 &&
  r.ResourcePatterns.length == 0 && r.Namespaces.length == 0

/-- `HasVerb` returns true if this rule contains the given verb: the loop
returns true on the wildcard verb or on an exact match. -/
def Rule.HasVerb (r : Rule) (verb : Verb) : Bool :=
  r.Verbs.any fun item => item == VerbAll || item == verb

/-- `HasResourceType` returns true if this rule has the given resource type. -/
def Rule.HasResourceType (r : Rule) (resource : Resource) : Bool :=
  r.Resources.any fun item => item == ResourceAll || item == resource

/-- The loop of `MatchesResourceName`: try each pattern in order, skipping
(`continue`) those that fail to compile, returning true on the first match. -/
def matchPatterns (name : String) : List String → Bool
  | [] => false
  | p :: rest =>
    match regexpCompile p with
    | none => matchPatterns name rest
    | some re => if re.MatchString name then true else matchPatterns name rest

/-- `MatchesResourceName` returns true if any of the resource patterns in
this rule match the given name. -/
def Rule.MatchesResourceName (r : Rule) (name : String) : Bool :=
  matchPatterns name r.ResourcePatterns

/-- `HasNamespace` returns true if this rule includes the given namespace. -/
def Rule.HasNamespace (r : Rule) (ns : String) : Bool :=
  r.Namespaces.any fun item => item == NamespaceAll || item == ns

/-! ## Sorting and DeepEqual -/

/-- Lexicographic order on character lists, by code point. -/
def charListLe : List Char → List Char → Bool
  | [], _ => true
  | _ :: _, [] => false
  | a :: as, b :: bs =>
    if a < b then true
    else if b < a then false
    else charListLe as bs

/-- Byte-wise (equivalently, code-point-wise) lexicographic order on
strings, the order Go's `sort.Strings` sorts by. -/
def stringLe (a b : String) : Bool := charListLe a.data b.data

/-- Value-level model of Go's `sort.Strings`: sort ascending by `stringLe`.
(`sort.Strings` sorts in place; the stateful aspect is modelled separately
by `sortStringsH`.) -/
def sortStrings (l : List String) : List String :=
  List.insertionSort (fun a b => stringLe a b = true) l

/-- Modelled from the spec: conversion of the typed verb slice to a plain
string slice (`verbsToStrings`, declared outside the provided sources);
since `Verb` is a string type this is an element-wise identity. -/
def verbsToStrings (verbs : List Verb) : List String :=
  verbs.map fun v => v

/-- Modelled from the spec: conversion of the typed resource slice to a
plain string slice (`resourcesToStrings`, declared outside the provided
sources). -/
def resourcesToStrings (resources : List Resource) : List String :=
  resources.map fun res => res

/-- Modelled from the spec: the generated `DeepCopy` returns an independent
copy of the rule; on pure values this is the identity. -/
def Rule.DeepCopy (r : Rule) : Rule :=
  ⟨r.Verbs, r.Resources, r.ResourcePatterns, r.Namespaces⟩

/-- Element-wise slice comparison: equal when both empty, unequal on length
mismatch, otherwise compare index by index (iterating over `ss` when it is
non-empty, over `xx` otherwise). -/
def strSliceEqual (ss xx : List String) : Bool :=
  let lS := ss.length
  let lX := xx.length
  if lS == 0 && lX == 0 then true
  else if lS != lX then false
  else if 0 < lS then
    (List.range lS).all fun i => xx.getD i "" == ss.getD i ""
  else
    (List.range lX).all fun i => ss.getD i "" == xx.getD i ""

/-- `DeepEqual` returns true if the provided rule matches this one exactly:
all values in (copies of) both rules are first sorted and then compared
field by field with `strSliceEqual`. -/
def Rule.DeepEqual (r : Rule) (rule : Rule) : Bool :=
  let thisR := r.DeepCopy
  let thatR := rule.DeepCopy
  let thisResourceStrings := sortStrings (resourcesToStrings thisR.Resources)
  let thisVerbStrings := sortStrings (verbsToStrings thisR.Verbs)
  let thatResourceStrings := sortStrings (resourcesToStrings thatR.Resources)
  let thatVerbStrings := sortStrings (verbsToStrings thatR.Verbs)
  let thisR := { thisR with
    ResourcePatterns := sortStrings thisR.ResourcePatterns,
    Namespaces := sortStrings thisR.Namespaces }
  let thatR := { thatR with
    ResourcePatterns := sortStrings thatR.ResourcePatterns,
    Namespaces := sortStrings thatR.Namespaces }
  strSliceEqual thisResourceStrings thatResourceStrings &&
  strSliceEqual thisVerbStrings thatVerbStrings &&
  strSliceEqual thisR.ResourcePatterns thatR.ResourcePatterns &&
  strSliceEqual thisR.Namespaces thatR.Namespaces

/-! ## Store model for the mutation claim

Go slices are references into mutable storage; `sort.Strings` sorts its
argument slice in place, and the generated `DeepCopy` allocates fresh
backing storage for each slice field.  To state that `DeepEqual` never
mutates caller-visible state we re-run its body over an explicit store of
string slices: rule fields are indices into the store, `DeepCopy` allocates
new indices, and `sort.Strings` writes through an index. -/

/-- A store of string slices; a slice value is an index into it. -/
abbrev Store := List (List String)

/-- A rule whose four slice fields are references into a `Store`. -/
structure HRule where
  verbs : Nat
  resources : Nat
  resourcePatterns : Nat
  namespaces : Nat

/-- Read the slice behind reference `i`. -/
def readSlice (σ : Store) (i : Nat) : List String := σ.getD i []

/-- Overwrite the slice behind reference `i`. -/
def writeSlice (σ : Store) (i : Nat) (l : List String) : Store := σ.set i l

/-- Allocate a fresh slice holding `l`; returns the extended store and the
new reference. -/
def allocSlice (σ : Store) (l : List String) : Store × Nat :=
  (σ ++ [l], σ.length)

/-- The generated `DeepCopy` over the store: copy each field into freshly
allocated backing storage. -/
def deepCopyH (σ : Store) (r : HRule) : Store × HRule :=
  let s1 := allocSlice σ (readSlice σ r.verbs)
  let s2 := allocSlice s1.1 (readSlice s1.1 r.resources)
  let s3 := allocSlice s2.1 (readSlice s2.1 r.resourcePatterns)
  let s4 := allocSlice s3.1 (readSlice s3.1 r.namespaces)
  (s4.1, ⟨s1.2, s2.2, s3.2, s4.2⟩)

/-- Go's `sort.Strings` over the store: sort the slice behind `i` in
place. -/
def sortStringsH (σ : Store) (i : Nat) : Store :=
  writeSlice σ i (sortStrings (readSlice σ i))

/-- The body of `DeepEqual` over the store, following the source line by
line: deep-copy both rules, extract and sort the verb/resource strings
(fresh slices), sort the copies' pattern and namespace slices in place, and
compare. -/
def deepEqualH (σ : Store) (r rule : HRule) : Store × Bool :=
  let c1 := deepCopyH σ r
  let c2 := deepCopyH c1.1 rule
  let thisR := c1.2
  let thatR := c2.2
  let σ2 := c2.1
  let thisResourceStrings := sortStrings (readSlice σ2 thisR.resources)
  let thisVerbStrings := sortStrings (readSlice σ2 thisR.verbs)
  let thatResourceStrings := sortStrings (readSlice σ2 thatR.resources)
  let thatVerbStrings := sortStrings (readSlice σ2 thatR.verbs)
  let σ3 := sortStringsH σ2 thisR.resourcePatterns
  let σ4 := sortStringsH σ3 thisR.namespaces
  let σ5 := sortStringsH σ4 thatR.resourcePatterns
  let σ6 := sortStringsH σ5 thatR.namespaces
  (σ6,
    strSliceEqual thisResourceStrings thatResourceStrings &&
    strSliceEqual thisVerbStrings thatVerbStrings &&
    strSliceEqual (readSlice σ6 thisR.resourcePatterns)
      (readSlice σ6 thatR.resourcePatterns) &&
    strSliceEqual (readSlice σ6 thisR.namespaces)
      (readSlice σ6 thatR.namespaces))

/-! ## Grants bitmask (`pkg/util/grants/grants.go`)

`RoleGrant` is declared as a Go `int`; every grant value in the program is
built by OR-ing the nonnegative named constants, so we model it as `Nat`
(no operation here can overflow or go negative). -/

/-- A grant bitmask. -/
abbrev RoleGrant := Nat

/-- Bit 0, via `1 << iota`. -/
def ReadUsers : RoleGrant := 1 <<< 0

/-- Bit 1. -/
def WriteUsers : RoleGrant := 1 <<< 1

/-- Bit 2. -/
def ReadRoles : RoleGrant := 1 <<< 2

/-- Bit 3. -/
def WriteRoles : RoleGrant := 1 <<< 3

/-- Bit 4. -/
def ReadTemplates : RoleGrant := 1 <<< 4

/-- Bit 5. -/
def WriteTemplates : RoleGrant := 1 <<< 5

/-- Bit 6. -/
def LaunchTemplates : RoleGrant := 1 <<< 6

/-- Bit 7. -/
def ReadDesktopSessions : RoleGrant := 1 <<< 7

/-- The union of all named grant bits. -/
def All : RoleGrant :=
  ReadUsers ||| WriteUsers |||
  ReadRoles ||| WriteRoles |||
  ReadTemplates ||| WriteTemplates |||
  LaunchTemplates ||| ReadDesktopSessions

/-- The global grant name table, indexed by bit position. -/
def grantNames : List String :=
  ["ReadUsers",
   "WriteUsers",
   "ReadRoles",
   "WriteRoles",
   "ReadTemplates",
   "WriteTemplates",
   "LaunchTemplates",
   "ReadDesktopSessions"]

/-- The list of the eight named grant constants, in declaration order. -/
def namedGrants : List RoleGrant :=
  [ReadUsers, WriteUsers, ReadRoles, WriteRoles,
   ReadTemplates, WriteTemplates, LaunchTemplates, ReadDesktopSessions]

/-- `Has` reports whether any bit of `grant` is set in the receiver. -/
def RoleGrant.Has (r grant : RoleGrant) : Bool := r &&& grant != 0

/-- `Names` collects, in bit order, the names of the capabilities whose bit
is set. -/
def RoleGrant.Names (r : RoleGrant) : List String :=
  (List.range grantNames.length).foldl
    (fun result i =>
      if r &&& (1 <<< i) != 0 then result ++ [grantNames.getD i ""]
      else result)
    []

/-! ## Helper lemmas -/

theorem charListLe_total : ∀ as bs : List Char, charListLe as bs = true ∨ charListLe bs as = true := by
  intro as
  induction as with
  | nil => intro bs; left; rfl
  | cons a as ih =>
    intro bs
    cases bs with
    | nil => right; rfl
    | cons b bs' =>
      rcases lt_trichotomy a b with h | h | h
      · left; simp [charListLe, h]
      · subst h
        rcases ih bs' with h' | h'
        · left; simp [charListLe, lt_irrefl, h']
        · right; simp [charListLe, lt_irrefl, h']
      · right; simp [charListLe, h]

theorem charListLe_trans : ∀ as bs cs : List Char, charListLe as bs = true →
    charListLe bs cs = true → charListLe as cs = true := by
  intro as
  induction as with
  | nil => intro bs cs _ _; rfl
  | cons a as ih =>
    intro bs cs h1 h2
    cases bs with
    | nil => simp [charListLe] at h1
    | cons b bs' =>
      cases cs with
      | nil => simp [charListLe] at h2
      | cons c cs' =>
        rcases lt_trichotomy a b with hab | hab | hab
        · rcases lt_trichotomy b c with hbc | hbc | hbc
          · simp [charListLe, lt_trans hab hbc]
          · subst hbc; simp [charListLe, hab]
          · simp [charListLe, lt_asymm hbc, hbc] at h2
        · subst hab
          rcases lt_trichotomy a c with hac | hac | hac
          · simp [charListLe, hac]
          · subst hac
            have h1' : charListLe as bs' = true := by
              simpa [charListLe, lt_irrefl] using h1
            have h2' : charListLe bs' cs' = true := by
              simpa [charListLe, lt_irrefl] using h2
            simp [charListLe, lt_irrefl, ih bs' cs' h1' h2']
          · simp [charListLe, lt_asymm hac, hac] at h2
        · simp [charListLe, lt_asymm hab, hab] at h1

theorem charListLe_antisymm : ∀ as bs : List Char, charListLe as bs = true →
    charListLe bs as = true → as = bs := by
  intro as
  induction as with
  | nil =>
    intro bs _ h2
    cases bs with
    | nil => rfl
    | cons b bs' => simp [charListLe] at h2
  | cons a as ih =>
    intro bs h1 h2
    cases bs with
    | nil => simp [charListLe] at h1
    | cons b bs' =>
      rcases lt_trichotomy a b with h | h | h
      · simp [charListLe, lt_asymm h, h] at h2
      · subst h
        have h1' : charListLe as bs' = true := by
          simpa [charListLe, lt_irrefl] using h1
        have h2' : charListLe bs' as = true := by
          simpa [charListLe, lt_irrefl] using h2
        rw [ih bs' h1' h2']
      · simp [charListLe, lt_asymm h, h] at h1

theorem stringLe_total (a b : String) : stringLe a b = true ∨ stringLe b a = true :=
  charListLe_total a.data b.data

theorem stringLe_trans (a b c : String) : stringLe a b = true → stringLe b c = true →
    stringLe a c = true :=
  charListLe_trans a.data b.data c.data

theorem stringLe_antisymm (a b : String) (h1 : stringLe a b = true)
    (h2 : stringLe b a = true) : a = b :=
  congrArg String.mk (charListLe_antisymm a.data b.data h1 h2)

instance : IsTotal String (fun a b => stringLe a b = true) := ⟨stringLe_total⟩

instance : IsTrans String (fun a b => stringLe a b = true) := ⟨stringLe_trans⟩

instance : IsAntisymm String (fun a b => stringLe a b = true) := ⟨stringLe_antisymm⟩

theorem sortStrings_perm (l : List String) : (sortStrings l).Perm l :=
  List.perm_insertionSort _ l

theorem sortStrings_sorted (l : List String) :
    List.Sorted (fun a b => stringLe a b = true) (sortStrings l) :=
  List.sorted_insertionSort _ l

theorem sortStrings_eq_of_perm {l1 l2 : List String} (h : l1.Perm l2) :
    sortStrings l1 = sortStrings l2 :=
  List.eq_of_perm_of_sorted
    ((sortStrings_perm l1).trans (h.trans (sortStrings_perm l2).symm))
    (sortStrings_sorted l1) (sortStrings_sorted l2)

theorem allRange_getD_iff (ss xx : List String) (h : ss.length = xx.length) :
    (((List.range ss.length).all fun i => xx.getD i "" == ss.getD i "") = true) ↔ ss = xx := by
  rw [List.all_eq_true]
  constructor
  · intro ha
    refine List.ext_getElem h (fun n h1 h2 => ?_)
    have hx := ha n (List.mem_range.mpr h1)
    rw [beq_iff_eq, List.getD_eq_getElem xx "" h2, List.getD_eq_getElem ss "" h1] at hx
    exact hx.symm
  · rintro rfl
    intro i _
    simp

theorem strSliceEqual_eq_true_iff (ss xx : List String) :
    strSliceEqual ss xx = true ↔ ss = xx := by
  by_cases h : ss.length = xx.length
  · cases ss with
    | nil =>
      cases xx with
      | nil => simp [strSliceEqual]
      | cons x xs => simp at h
    | cons s ss' =>
      cases xx with
      | nil => simp at h
      | cons x xs =>
        have hs : strSliceEqual (s :: ss') (x :: xs)
            = ((List.range (s :: ss').length).all fun i =>
                (x :: xs).getD i "" == (s :: ss').getD i "") := by
          simp [strSliceEqual, h]
        rw [hs]
        exact allRange_getD_iff _ _ h
  · have hne : ss ≠ xx := fun he => h (congrArg List.length he)
    have hb : (ss.length != xx.length) = true := bne_iff_ne.mpr h
    have h00 : ((ss.length == 0) && (xx.length == 0)) = false := by
      cases e1 : ss.length == 0 <;> cases e2 : xx.length == 0 <;> simp_all
    simp [strSliceEqual, h00, hb, hne]

theorem strSliceEqual_refl (l : List String) : strSliceEqual l l = true :=
  (strSliceEqual_eq_true_iff l l).mpr rfl

theorem matchPatterns_filter (name : String) (ps : List String) :
    matchPatterns name ps
      = matchPatterns name (ps.filter fun p => (regexpCompile p).isSome) := by
  induction ps with
  | nil => rfl
  | cons p rest ih =>
    cases h : regexpCompile p with
    | none => simp [matchPatterns, h, List.filter_cons, ih]
    | some re =>
      cases hm : re.MatchString name <;>
        simp [matchPatterns, h, List.filter_cons, hm, ih]

theorem any_wildcard_iff (w : String) (l : List String) (v : String) :
    (l.any fun item => item == w || item == v) = true ↔ v ∈ l ∨ w ∈ l := by
  rw [List.any_eq_true]
  constructor
  · rintro ⟨x, hx, hor⟩
    rw [Bool.or_eq_true, beq_iff_eq, beq_iff_eq] at hor
    rcases hor with h | h
    · right; exact h ▸ hx
    · left; exact h ▸ hx
  · rintro (h | h)
    · exact ⟨v, h, by simp⟩
    · exact ⟨w, h, by simp⟩

theorem verbsToStrings_eq (l : List Verb) : verbsToStrings l = l := by
  simp [verbsToStrings]

theorem resourcesToStrings_eq (l : List Resource) : resourcesToStrings l = l := by
  simp [resourcesToStrings]

theorem deepEqual_of_perms (r s : Rule) (h1 : r.Verbs.Perm s.Verbs)
    (h2 : r.Resources.Perm s.Resources)
    (h3 : r.ResourcePatterns.Perm s.ResourcePatterns)
    (h4 : r.Namespaces.Perm s.Namespaces) : r.DeepEqual s = true := by
  have e1 : sortStrings (verbsToStrings r.Verbs) = sortStrings (verbsToStrings s.Verbs) := by
    rw [verbsToStrings_eq, verbsToStrings_eq]; exact sortStrings_eq_of_perm h1
  have e2 : sortStrings (resourcesToStrings r.Resources)
      = sortStrings (resourcesToStrings s.Resources) := by
    rw [resourcesToStrings_eq, resourcesToStrings_eq]; exact sortStrings_eq_of_perm h2
  have e3 : sortStrings r.ResourcePatterns = sortStrings s.ResourcePatterns :=
    sortStrings_eq_of_perm h3
  have e4 : sortStrings r.Namespaces = sortStrings s.Namespaces :=
    sortStrings_eq_of_perm h4
  simp only [Rule.DeepEqual, Rule.DeepCopy]
  rw [e1, e2, e3, e4]
  simp [strSliceEqual_refl]

/-! ### Store-model lemmas -/

theorem readSlice_append (σ τ : Store) (i : Nat) (h : i < σ.length) :
    readSlice (σ ++ τ) i = readSlice σ i :=
  List.getD_append σ τ [] i h

theorem readSlice_sortStringsH (σ : Store) (j i : Nat) (h : i ≠ j) :
    readSlice (sortStringsH σ j) i = readSlice σ i := by
  simp only [sortStringsH, writeSlice, readSlice, List.getD]
  rw [List.get?_eq_getElem?, List.get?_eq_getElem?,
    List.getElem?_set_ne (fun he => h he.symm)]
  rw [List.get?_eq_getElem?]

theorem deepCopyH_snd (σ : Store) (r : HRule) :
    (deepCopyH σ r).2
      = ⟨σ.length, σ.length + 1, σ.length + 2, σ.length + 3⟩ := by
  simp [deepCopyH, allocSlice]

theorem deepCopyH_fst_length (σ : Store) (r : HRule) :
    (deepCopyH σ r).1.length = σ.length + 4 := by
  simp [deepCopyH, allocSlice]

theorem readSlice_deepCopyH (σ : Store) (r : HRule) (i : Nat) (h : i < σ.length) :
    readSlice (deepCopyH σ r).1 i = readSlice σ i := by
  simp only [deepCopyH, allocSlice, List.append_assoc]
  exact readSlice_append σ _ i h

/-! ### Grants lemmas -/

theorem land_shift_ne_zero (r i : Nat) : (r &&& (1 <<< i) != 0) = r.testBit i := by
  rw [Nat.shiftLeft_eq, one_mul, Nat.and_two_pow]
  cases h : r.testBit i <;> simp [h, Nat.pos_iff_ne_zero, Nat.two_pow_pos]

theorem testBit_ne_zero {r k : Nat} (h : r.testBit k = true) : r ≠ 0 := by
  intro h0
  rw [h0, Nat.zero_testBit] at h
  exact Bool.false_ne_true h

theorem has_all_of_bit (r : RoleGrant) (k : Nat) (hk : k < 8)
    (h : r.testBit k = true) : RoleGrant.Has r All = true := by
  simp only [RoleGrant.Has, bne_iff_ne, ne_eq]
  have hall : Nat.testBit All k = true := by
    interval_cases k <;> decide
  intro h0
  have hb := congrArg (fun n => n.testBit k) h0
  simp only [Nat.testBit_land, Nat.zero_testBit, h, hall, Bool.and_self] at hb
  exact Bool.noConfusion hb

theorem foldl_append_filter {α β : Type} (p : α → Bool) (f : α → β) :
    ∀ (l : List α) (acc : List β),
      l.foldl (fun res i => if p i then res ++ [f i] else res) acc
        = acc ++ (l.filter p).map f := by
  intro l
  induction l with
  | nil => intro acc; simp
  | cons a t ih =>
    intro acc
    cases h : p a <;> simp [h, ih, List.filter_cons]

theorem names_eq (r : RoleGrant) :
    RoleGrant.Names r
      = ((List.range 8).filter (fun i => r.testBit i)).map
          (fun i => grantNames.getD i "") := by
  have hp : (fun i => r &&& (1 <<< i) != 0) = fun i => r.testBit i :=
    funext fun i => land_shift_ne_zero r i
  have hl : grantNames.length = 8 := rfl
  simp only [RoleGrant.Names, hl]
  rw [foldl_append_filter (fun i => r &&& (1 <<< i) != 0)
    (fun i => grantNames.getD i "") (List.range 8) [], hp]
  simp

/-! ## Claim theorems -/

/-- C1: `MatchesResourceName` silently skips any pattern that fails to
compile (evaluation is the same as with the non-compiling patterns removed);
in particular with patterns `["(unclosed", "^ok$"]` the name `"ok"` matches
and `"anything-else"` does not. -/
theorem c1_invalid_patterns_silently_skipped :
    (∀ (r : Rule) (name : String),
      r.MatchesResourceName name
        = Rule.MatchesResourceName
            ⟨r.Verbs, r.Resources,
             r.ResourcePatterns.filter (fun p => (regexpCompile p).isSome),
             r.Namespaces⟩ name)
    ∧ Rule.MatchesResourceName ⟨[], [], ["(unclosed", "^ok$"], []⟩ "ok" = true
    ∧ Rule.MatchesResourceName ⟨[], [], ["(unclosed", "^ok$"], []⟩ "anything-else"
        = false :=
  ⟨fun r name => matchPatterns_filter name r.ResourcePatterns,
   by decide, by decide⟩

/-- C2: `HasVerb` is true iff the verb is present verbatim or the wildcard
verb is present anywhere in `Verbs`; `HasResourceType` and `HasNamespace`
have the same wildcard-or-exact semantics. -/
theorem c2_wildcard_or_exact_semantics (r : Rule) (v : Verb) (res : Resource)
    (ns : String) :
    (r.HasVerb v = true ↔ v ∈ r.Verbs ∨ VerbAll ∈ r.Verbs)
    ∧ (r.HasResourceType res = true ↔ res ∈ r.Resources ∨ ResourceAll ∈ r.Resources)
    ∧ (r.HasNamespace ns = true ↔ ns ∈ r.Namespaces ∨ NamespaceAll ∈ r.Namespaces) :=
  ⟨any_wildcard_iff VerbAll r.Verbs v,
   any_wildcard_iff ResourceAll r.Resources res,
   any_wildcard_iff NamespaceAll r.Namespaces ns⟩

/-- C3: with an empty `Verbs` field `HasVerb` is false for every verb, and
likewise for `HasResourceType`, `MatchesResourceName` and `HasNamespace` on
their empty fields; hence the all-empty rule authorizes nothing and matches
no name. -/
theorem c3_empty_fields_deny (r : Rule) :
    (r.Verbs = [] → ∀ v, r.HasVerb v = false)
    ∧ (r.Resources = [] → ∀ res, r.HasResourceType res = false)
    ∧ (r.ResourcePatterns = [] → ∀ name, r.MatchesResourceName name = false)
    ∧ (r.Namespaces = [] → ∀ ns, r.HasNamespace ns = false) := by
  refine ⟨fun h v => ?_, fun h res => ?_, fun h name => ?_, fun h ns => ?_⟩ <;>
    simp [Rule.HasVerb, Rule.HasResourceType, Rule.MatchesResourceName,
      Rule.HasNamespace, matchPatterns, h]

/-- Witness for C3 at the all-empty rule. -/
theorem c3_empty_fields_deny_witness :
    Rule.HasVerb ⟨[], [], [], []⟩ "read" = false
    ∧ Rule.HasResourceType ⟨[], [], [], []⟩ "users" = false
    ∧ Rule.MatchesResourceName ⟨[], [], [], []⟩ "" = false
    ∧ Rule.HasNamespace ⟨[], [], [], []⟩ "default" = false :=
  ⟨(c3_empty_fields_deny ⟨[], [], [], []⟩).1 rfl "read",
   (c3_empty_fields_deny ⟨[], [], [], []⟩).2.1 rfl "users",
   (c3_empty_fields_deny ⟨[], [], [], []⟩).2.2.1 rfl "",
   (c3_empty_fields_deny ⟨[], [], [], []⟩).2.2.2 rfl "default"⟩

/-- C4: `DeepEqual` is duplicate-sensitive (`["read","read"]` vs `["read"]`
compare unequal) and syntactic on pattern strings (`["a"]` vs `["b"]`
compare unequal). -/
theorem c4_deepEqual_duplicate_sensitive_and_syntactic :
    Rule.DeepEqual ⟨["read", "read"], [], [], []⟩ ⟨["read"], [], [], []⟩ = false
    ∧ Rule.DeepEqual ⟨[], [], ["a"], []⟩ ⟨[], [], ["b"], []⟩ = false := by
  decide

/-- C5: `DeepEqual` is reflexive, and true whenever the four fields of the
two rules are permutations of each other. -/
theorem c5_deepEqual_reflexive_order_insensitive (r s : Rule) :
    r.DeepEqual r = true
    ∧ (r.Verbs.Perm s.Verbs → r.Resources.Perm s.Resources →
       r.ResourcePatterns.Perm s.ResourcePatterns →
       r.Namespaces.Perm s.Namespaces → r.DeepEqual s = true) :=
  ⟨deepEqual_of_perms r r (List.Perm.refl _) (List.Perm.refl _)
      (List.Perm.refl _) (List.Perm.refl _),
   fun h1 h2 h3 h4 => deepEqual_of_perms r s h1 h2 h3 h4⟩

/-- Witness for C5 at a concrete permuted pair of rules. -/
theorem c5_deepEqual_reflexive_order_insensitive_witness :
    Rule.DeepEqual ⟨["read", "use"], ["users"], ["p", "q"], ["n"]⟩
      ⟨["read", "use"], ["users"], ["p", "q"], ["n"]⟩ = true
    ∧ Rule.DeepEqual ⟨["read", "use"], ["users"], ["p", "q"], ["n"]⟩
      ⟨["use", "read"], ["users"], ["q", "p"], ["n"]⟩ = true :=
  ⟨(c5_deepEqual_reflexive_order_insensitive
      ⟨["read", "use"], ["users"], ["p", "q"], ["n"]⟩
      ⟨["use", "read"], ["users"], ["q", "p"], ["n"]⟩).1,
   (c5_deepEqual_reflexive_order_insensitive
      ⟨["read", "use"], ["users"], ["p", "q"], ["n"]⟩
      ⟨["use", "read"], ["users"], ["q", "p"], ["n"]⟩).2
     (by decide) (by decide) (by decide) (by decide)⟩

/-- C6: `Has` is true iff the bitwise AND of receiver and argument is
nonzero; consequently any mask with at least one named bit set satisfies
`Has All` (non-strict containment). -/
theorem c6_has_is_nonzero_and (r g : RoleGrant) :
    (RoleGrant.Has r g = true ↔ r &&& g ≠ 0)
    ∧ (g ∈ namedGrants → RoleGrant.Has r g = true → RoleGrant.Has r All = true) := by
  constructor
  · simp [RoleGrant.Has, bne_iff_ne]
  · intro hg hhas
    simp only [namedGrants, List.mem_cons, List.not_mem_nil, or_false] at hg
    rcases hg with rfl | rfl | rfl | rfl | rfl | rfl | rfl | rfl <;>
      (simp only [RoleGrant.Has, ReadUsers, WriteUsers, ReadRoles, WriteRoles,
        ReadTemplates, WriteTemplates, LaunchTemplates,
        ReadDesktopSessions] at hhas;
       rw [land_shift_ne_zero] at hhas;
       refine has_all_of_bit r _ ?_ hhas) <;> decide

/-- Witness for C6: a single-bit mask already satisfies `Has All`. -/
theorem c6_has_is_nonzero_and_witness :
    RoleGrant.Has ReadUsers All = true :=
  (c6_has_is_nonzero_and ReadUsers ReadUsers).2 (by decide) (by decide)

/-- C7: `Names` returns exactly the names of the set bits in bit order
(bit 0 first), depends only on the mask value, and on
`ReadUsers ||| WriteUsers` yields `["ReadUsers", "WriteUsers"]` regardless
of OR order. -/
theorem c7_names_in_bit_order (r : RoleGrant) :
    RoleGrant.Names r
      = ((List.range 8).filter (fun i => r.testBit i)).map
          (fun i => grantNames.getD i "")
    ∧ RoleGrant.Names (ReadUsers ||| WriteUsers) = ["ReadUsers", "WriteUsers"]
    ∧ RoleGrant.Names (WriteUsers ||| ReadUsers) = ["ReadUsers", "WriteUsers"] :=
  ⟨names_eq r, by decide, by decide⟩

/-- C8: the eight named grants occupy bits 0 through 7 in declaration order
and `All` is their union, 255. -/
theorem c8_grant_bit_assignment :
    ReadUsers = 1 ∧ WriteUsers = 2 ∧ ReadRoles = 4 ∧ WriteRoles = 8
    ∧ ReadTemplates = 16 ∧ WriteTemplates = 32 ∧ LaunchTemplates = 64
    ∧ ReadDesktopSessions = 128 ∧ All = 255
    ∧ All = (ReadUsers ||| WriteUsers ||| ReadRoles ||| WriteRoles |||
        ReadTemplates ||| WriteTemplates ||| LaunchTemplates |||
        ReadDesktopSessions) := by
  decide

/-- C9: `DeepEqual`, run over the store model, leaves every caller-visible
slice unchanged: sorting happens only on the freshly allocated copies. -/
theorem c9_deepEqual_no_mutation (σ : Store) (r rule : HRule) (i : Nat)
    (h : i < σ.length) :
    readSlice (deepEqualH σ r rule).1 i = readSlice σ i := by
  have hr2 := deepCopyH_snd σ r
  have hs2 := deepCopyH_snd (deepCopyH σ r).1 rule
  have hl1 := deepCopyH_fst_length σ r
  simp only [deepEqualH]
  rw [readSlice_sortStringsH _ _ _ (by simp [hs2, hl1]; omega),
      readSlice_sortStringsH _ _ _ (by simp [hs2, hl1]; omega),
      readSlice_sortStringsH _ _ _ (by simp [hr2]; omega),
      readSlice_sortStringsH _ _ _ (by simp [hr2]; omega),
      readSlice_deepCopyH _ _ _ (by simp [hl1]; omega),
      readSlice_deepCopyH _ _ _ h]

/-- Witness for C9 at a concrete store and rule pair. -/
theorem c9_deepEqual_no_mutation_witness :
    (0 : Nat) < ([["b", "a"]] : Store).length
    ∧ readSlice (deepEqualH [["b", "a"]] ⟨0, 0, 0, 0⟩ ⟨0, 0, 0, 0⟩).1 0
        = readSlice [["b", "a"]] 0 :=
  ⟨by decide,
   c9_deepEqual_no_mutation [["b", "a"]] ⟨0, 0, 0, 0⟩ ⟨0, 0, 0, 0⟩ 0 (by decide)⟩

/-- C10: `strSliceEqual` is plain element-wise list equality, and its two
iteration branches agree whenever the lengths are equal. -/
theorem c10_strSliceEqual_is_list_equality (ss xx : List String) :
    (strSliceEqual ss xx = true ↔ ss = xx)
    ∧ (ss.length = xx.length →
        ((List.range ss.length).all fun i => xx.getD i "" == ss.getD i "")
          = ((List.range xx.length).all fun i => ss.getD i "" == xx.getD i "")) := by
  refine ⟨strSliceEqual_eq_true_iff ss xx, fun hlen => ?_⟩
  rw [Bool.eq_iff_iff, allRange_getD_iff ss xx hlen,
    allRange_getD_iff xx ss hlen.symm]
  exact eq_comm

/-- Witness for C10 at concrete slices. -/
theorem c10_strSliceEqual_is_list_equality_witness :
    strSliceEqual ["a", "b"] ["a", "b"] = true
    ∧ ((["a", "b"] : List String).length = (["a", "b"] : List String).length) :=
  ⟨(c10_strSliceEqual_is_list_equality ["a", "b"] ["a", "b"]).1.mpr rfl,
   rfl⟩
